import Mathlib

/-!
Verification of the Rideau Canal dashboard (server `server.js`, client
`public/app.js`) against its specification.

Shallow-embedding conventions used throughout:

* JSON / JavaScript field values are modelled by `JsVal` (absent fields are
  `JsVal.undef`); JavaScript truthiness and the `Number(...)` coercion are
  modelled by `jsTruthy` and `jsToNumber`.  The string form accepted by
  `Number` is modelled for finite decimal literals (optional sign, digits,
  optional fraction, optional exponent); nonfinite (`Infinity`) and
  nondecimal-radix literals are outside the model.
* Timestamps (`windowEnd`, `Date.now()`, the computed `since` bound) are
  modelled as exact rational instants; the ISO-8601 string rendering of the
  store is order-isomorphic to instants, so the store comparison
  `c.windowEnd >= @since` becomes `≤` on `ℚ`.  The finite range of the
  JavaScript `Date` type is not modelled.
* Numbers are exact rationals; IEEE-754 double rounding is not modelled.
* The JavaScript object used as a dictionary in `/api/latest` is modelled as
  an insertion-ordered association list, together with the prototype-chain
  behaviour of property reads: `latestByLocation[loc]` is truthy either when
  `loc` is a recorded key (all stored values are documents, hence truthy) or
  when `loc` names an inherited member of `Object.prototype`.
* `String.prototype.toLowerCase` is modelled as ASCII lowercasing of the
  character list, and `localeCompare` as code-point lexicographic comparison.
-/

namespace RideauCanal

/-- Model of a JavaScript/JSON field value as it can occur in a stored
document: absent (`undef`), `null`, a boolean, a finite number, or a string. -/
inductive JsVal where
  | undef
  | null
  | boolean (b : Bool)
  | num (q : ℚ)
  | str (s : String)
deriving DecidableEq

/-- JavaScript truthiness of a `JsVal`: `undefined`, `null`, `false`, `0` and
`""` are falsy, everything else is truthy. -/
def jsTruthy : JsVal → Bool
  | JsVal.undef => false
  | JsVal.null => false
  | JsVal.boolean b => b
  | JsVal.num q => decide (q ≠ 0)
  | JsVal.str s => decide (s ≠ "")

/-- Numeric value of a list of decimal digit characters, most significant
first (the digits of a JavaScript numeric literal). -/
def digitsToNat (cs : List Char) : ℕ :=
  cs.foldl (fun acc c => acc * 10 + (c.toNat - 48)) 0

/-- Exponent part of a JavaScript decimal literal: an optional sign followed
by at least one digit, consuming the whole rest of the input.  `none` models
`NaN`. -/
def parseExponentPart (mantissa : ℚ) (cs : List Char) : Option ℚ :=
  let signAndDigits : Bool × List Char :=
    match cs with
    | '+' :: rest => (true, rest)
    | '-' :: rest => (false, rest)
    | rest => (true, rest)
  match signAndDigits with
  | (pos, ds) =>
    if ds ≠ [] ∧ ds.all Char.isDigit then
      some (if pos then mantissa * 10 ^ digitsToNat ds else mantissa / 10 ^ digitsToNat ds)
    else none

/-- Unsigned part of a JavaScript decimal literal: `digits`, `digits.digits`,
`.digits` or `digits.`, optionally followed by an exponent.  `none` models
`NaN`. -/
def parseUnsignedDecimal (cs : List Char) : Option ℚ :=
  let ipRest := cs.span Char.isDigit
  match ipRest.2 with
  | [] => if ipRest.1 = [] then none else some (digitsToNat ipRest.1)
  | '.' :: rest2 =>
    let fpRest := rest2.span Char.isDigit
    if ipRest.1 = [] ∧ fpRest.1 = [] then none
    else
      let mantissa : ℚ := digitsToNat ipRest.1 + (digitsToNat fpRest.1 : ℚ) / 10 ^ fpRest.1.length
      match fpRest.2 with
      | [] => some mantissa
      | 'e' :: rest3 => parseExponentPart mantissa rest3
      | 'E' :: rest3 => parseExponentPart mantissa rest3
      | _ => none
  | 'e' :: rest2 =>
    if ipRest.1 = [] then none else parseExponentPart (digitsToNat ipRest.1) rest2
  | 'E' :: rest2 =>
    if ipRest.1 = [] then none else parseExponentPart (digitsToNat ipRest.1) rest2
  | _ => none

/-- Whitespace trimming applied by the JavaScript string-to-number coercion,
over character lists. -/
def jsTrim (cs : List Char) : List Char :=
  ((cs.dropWhile Char.isWhitespace).reverse.dropWhile Char.isWhitespace).reverse

/-- Model of the JavaScript `Number(string)` coercion for finite decimal
literals.  A trimmed empty string yields `0`; otherwise an optional sign
followed by a decimal literal; anything else yields `none`, which models
`NaN`. -/
def jsParseNumber (s : String) : Option ℚ :=
  match jsTrim s.toList with
  | [] => some 0
  | '+' :: cs => parseUnsignedDecimal cs
  | '-' :: cs => (parseUnsignedDecimal cs).map Neg.neg
  | cs => parseUnsignedDecimal cs

/-- Model of the JavaScript `Number(value)` coercion; `none` models `NaN`. -/
def jsToNumber : JsVal → Option ℚ
  | JsVal.undef => none
  | JsVal.null => some 0
  | JsVal.boolean b => some (if b then 1 else 0)
  | JsVal.num q => some q
  | JsVal.str s => jsParseNumber s

/-- ASCII lowercasing of one character (model of `toLowerCase` restricted to
the ASCII statuses this system distinguishes). -/
def lowerChar (c : Char) : Char :=
  if 'A' ≤ c ∧ c ≤ 'Z' then Char.ofNat (c.toNat + 32) else c

/-- ASCII lowercasing of a string. -/
def lowerStr (s : String) : String :=
  String.mk (s.toList.map lowerChar)

/-- Model of `value.toFixed(1)`: round to the nearest tenth, ties toward the
larger value, and print with exactly one fractional digit. -/
def toFixed1 (q : ℚ) : String :=
  let n : ℤ := ⌊q * 10 + 1 / 2⌋
  if n < 0 then
    "-" ++ toString ((-n).toNat / 10) ++ "." ++ toString ((-n).toNat % 10)
  else
    toString (n.toNat / 10) ++ "." ++ toString (n.toNat % 10)

/-- Model of the JavaScript idiom `v || dflt` for an optional string field:
the fallback is used when the field is absent or the empty string. -/
def jsStrOr (v : Option String) (dflt : String) : String :=
  match v with
  | some s => if s = "" then dflt else s
  | none => dflt

/-- Digit character for a value below ten. -/
def digitChar (n : ℕ) : Char :=
  Char.ofNat (48 + n)

/-- Decimal digits of a natural number, most significant first, accumulated on
the right; the first argument is fuel (any value above the number works). -/
def natToStrAux : ℕ → ℕ → List Char → List Char
  | 0, _, acc => acc
  | fuel + 1, n, acc =>
    if n < 10 then digitChar n :: acc
    else natToStrAux fuel (n / 10) (digitChar (n % 10) :: acc)

/-- Model of the JavaScript default string conversion of an integer, as used
by template-literal interpolation. -/
def jsIntToString (i : ℤ) : String :=
  match i with
  | Int.ofNat n => String.mk (natToStrAux (n + 1) n [])
  | Int.negSucc m => String.mk ('-' :: natToStrAux (m + 2) (m + 1) [])

/-- Reading count field of a stored document: per the data model an integer
count that may also be absent or `null`. -/
inductive ReadingCount where
  | undef
  | null
  | int (n : ℤ)
deriving DecidableEq

/-- Model of `doc.readingCount ?? "—"` followed by template interpolation:
nullish values display as the dash placeholder, numbers as their decimal
rendering. -/
def readingDisplay : ReadingCount → String
  | ReadingCount.undef => "—"
  | ReadingCount.null => "—"
  | ReadingCount.int n => jsIntToString n

/-- One aggregation document as consumed by this system.  `location` and
`safetyStatus` are string fields that may be absent; `windowEnd` is the
aggregation-window end instant (see the header on time modelling); the three
measurements may be absent or non-numeric and are therefore full `JsVal`s. -/
structure AggregationDocument where
  location : Option String
  windowEnd : ℚ
  avgIceThickness : JsVal
  avgSurfaceTemperature : JsVal
  maxSnowAccumulation : JsVal
  safetyStatus : Option String
  readingCount : ReadingCount
deriving DecidableEq

/-- Model of the client helper `numOrDash`: coerce with `Number`, display a
dash placeholder on `NaN`, otherwise `toFixed(1)`. -/
def numOrDash (value : JsVal) : String :=
  match jsToNumber value with
  | none => "—"
  | some n => toFixed1 n

/-- Names of the inherited members of `Object.prototype`: reading such a
property on the plain object `{}` yields a truthy value (a built-in function,
or the prototype object itself for `__proto__`) even though the object has no
own property of that name. -/
def protoProps : List String :=
  ["constructor", "hasOwnProperty", "isPrototypeOf", "propertyIsEnumerable",
   "toLocaleString", "toString", "valueOf",
   "__defineGetter__", "__defineSetter__", "__lookupGetter__", "__lookupSetter__",
   "__proto__"]

/-- Location key of a document in `/api/latest`: `doc.location || "Unknown"`. -/
def locKey (location : Option String) : String :=
  jsStrOr location "Unknown"

/-- Keys of an association list, in insertion order. -/
def keysOf (m : List (String × AggregationDocument)) : List String :=
  m.map Prod.fst

/-- Truthiness of the property read `latestByLocation[k]` on the dictionary
object modelled by `m`: truthy when `k` is a recorded key (all recorded values
are documents, hence truthy) or when `k` is an inherited `Object.prototype`
member. -/
def objTruthy (m : List (String × AggregationDocument)) (k : String) : Bool :=
  (m.lookup k).isSome || protoProps.contains k

/-- Loop body of the `/api/latest` handler: walk the fetched sample in order
and record each document under its location key unless the property read for
that key is already truthy. -/
def latestLoop : List AggregationDocument → List (String × AggregationDocument) →
    List (String × AggregationDocument)
  | [], m => m
  | d :: ds, m =>
    if objTruthy m (locKey d.location) then latestLoop ds m
    else latestLoop ds (m ++ [(locKey d.location, d)])

/-- Model of the `/api/latest` handler applied to the fetched top-100 sample:
the recorded documents, in insertion order (`Object.values`; the integer-like
key reordering of `Object.values` affects order only, which the service does
not promise). -/
def getLatest (sample : List AggregationDocument) : List AggregationDocument :=
  (latestLoop sample []).map Prod.snd

/-- Recursive description of the entries recorded by `latestLoop` after a set
of already-recorded keys: a document is recorded exactly when its key was not
seen before and does not collide with an inherited `Object.prototype` member. -/
def latestSpec : List AggregationDocument → List String → List (String × AggregationDocument)
  | [], _ => []
  | d :: ds, seen =>
    if locKey d.location ∈ seen ∨ locKey d.location ∈ protoProps then latestSpec ds seen
    else (locKey d.location, d) :: latestSpec ds (locKey d.location :: seen)

/-- Ascending order on documents by window end, the `ORDER BY c.windowEnd ASC`
of the history query. -/
def historyLE (a b : AggregationDocument) : Prop :=
  a.windowEnd ≤ b.windowEnd

instance : DecidableRel historyLE :=
  fun a b => inferInstanceAs (Decidable (a.windowEnd ≤ b.windowEnd))

instance : IsTotal AggregationDocument historyLE :=
  ⟨fun a b => le_total a.windowEnd b.windowEnd⟩

instance : IsTrans AggregationDocument historyLE :=
  ⟨fun _ _ _ hab hbc => le_trans hab hbc⟩

/-- Numeric coercion of an optional query-parameter string:
`Number(req.query.hours)`, where an absent parameter coerces to `NaN`. -/
def jsQueryNumber (p : Option String) : Option ℚ :=
  match p with
  | none => none
  | some s => jsParseNumber s

/-- Model of the JavaScript idiom `n || dflt` on a `Number` coercion result:
`NaN` and `0` are falsy and fall back to the default. -/
def jsNumOr (v : Option ℚ) (dflt : ℚ) : ℚ :=
  match v with
  | none => dflt
  | some q => if q = 0 then dflt else q

/-- Model of the `/api/history` handler: coerce the query parameters
(`location` defaulting to the empty string, `hours` falling back to 6 on a
falsy coercion), compute `since = now - hours*3600000` milliseconds, and
return the store documents passing the filter `windowEnd >= since` and, only
when a non-empty location is given, `location = @location`, ordered ascending
by window end with no limit. -/
def getHistory (store : List AggregationDocument) (now : ℚ)
    (locationQuery hoursQuery : Option String) : List AggregationDocument :=
  List.insertionSort historyLE
    (store.filter fun d =>
      decide (now - jsNumOr (jsQueryNumber hoursQuery) 6 * 3600000 ≤ d.windowEnd) &&
        (jsStrOr locationQuery "" == "" || d.location == some (jsStrOr locationQuery "")))

/-- Fixed location priority list of the latest-status renderer. -/
def preferredOrder : List String :=
  ["Dows Lake", "Fifth Avenue", "NAC"]

/-- Model of `Array.prototype.indexOf`: index of the first occurrence, `-1`
when absent. -/
def jsIndexOf (l : List String) (s : String) : ℤ :=
  match l.indexOf? s with
  | some i => (i : ℤ)
  | none => -1

/-- Location string used by the latest-card comparator: `a.location || ""`. -/
def cardLoc (d : AggregationDocument) : String :=
  jsStrOr d.location ""

/-- Sort key derived from the priority list: the list index when the location
matches an entry, `999` otherwise. -/
def priorityOf (loc : String) : ℤ :=
  let idx := jsIndexOf preferredOrder loc
  if idx = -1 then 999 else idx

/-- Model of `localeCompare` as code-point lexicographic comparison, returning
a negative, zero or positive value. -/
def localeCompare (a b : String) : ℤ :=
  if a.toList < b.toList then -1 else if b.toList < a.toList then 1 else 0

/-- Comparator of the latest-status renderer: priority difference first, then
`localeCompare` of the location strings. -/
def latestCardCmp (a b : AggregationDocument) : ℤ :=
  if priorityOf (cardLoc a) ≠ priorityOf (cardLoc b) then
    priorityOf (cardLoc a) - priorityOf (cardLoc b)
  else localeCompare (cardLoc a) (cardLoc b)

/-- Card order as the specification words it: matched priority entries first,
by list index, then unmatched locations alphabetically. -/
def cardLE (a b : AggregationDocument) : Prop :=
  priorityOf (cardLoc a) < priorityOf (cardLoc b) ∨
    (priorityOf (cardLoc a) = priorityOf (cardLoc b) ∧ (cardLoc a).toList ≤ (cardLoc b).toList)

instance : DecidableRel cardLE :=
  fun a b =>
    inferInstanceAs (Decidable (priorityOf (cardLoc a) < priorityOf (cardLoc b) ∨
      (priorityOf (cardLoc a) = priorityOf (cardLoc b) ∧
        (cardLoc a).toList ≤ (cardLoc b).toList)))

instance : IsTotal AggregationDocument cardLE := by
  constructor
  intro a b
  rcases lt_trichotomy (priorityOf (cardLoc a)) (priorityOf (cardLoc b)) with h | h | h
  · exact Or.inl (Or.inl h)
  · rcases le_total (cardLoc a).toList (cardLoc b).toList with hs | hs
    · exact Or.inl (Or.inr ⟨h, hs⟩)
    · exact Or.inr (Or.inr ⟨h.symm, hs⟩)
  · exact Or.inr (Or.inl h)

instance : IsTrans AggregationDocument cardLE := by
  constructor
  intro a b c hab hbc
  rcases hab with hab | ⟨hab, hab2⟩
  · rcases hbc with hbc | ⟨hbc, _⟩
    · exact Or.inl (hab.trans hbc)
    · exact Or.inl (hbc ▸ hab)
  · rcases hbc with hbc | ⟨hbc, hbc2⟩
    · exact Or.inl (hab ▸ hbc)
    · exact Or.inr ⟨hab.trans hbc, hab2.trans hbc2⟩

/-- The sorted copy `[...data].sort(comparator)` built by the latest-status
renderer before cards are appended in order. -/
def sortedLatestCards (data : List AggregationDocument) : List AggregationDocument :=
  List.insertionSort cardLE data

/-- Rendered content of one status card (the time display is presentation
only and not claimed, so it is not part of the model). -/
structure CardView where
  location : String
  badgeClass : String
  label : String
  avgIce : String
  avgSurface : String
  maxSnow : String
  readingCount : String
deriving DecidableEq

/-- Model of the client `buildStatusCard`: badge classification over the
lowercased status with `status-warning` as the default, the raw status text
as label, and the four independently formatted metrics. -/
def buildStatusCard (doc : AggregationDocument) : CardView :=
  let safetyStatus := lowerStr (jsStrOr doc.safetyStatus "Unknown")
  let label := jsStrOr doc.safetyStatus "Unknown"
  let badgeClass :=
    if safetyStatus = "safe" then "status-safe"
    else if safetyStatus = "warning" ∨ safetyStatus = "caution" then "status-warning"
    else if safetyStatus = "unsafe" ∨ safetyStatus = "closed" then "status-danger"
    else "status-warning"
  { location := jsStrOr doc.location "Unknown"
    badgeClass := badgeClass
    label := label
    avgIce := numOrDash doc.avgIceThickness
    avgSurface := numOrDash doc.avgSurfaceTemperature
    maxSnow := numOrDash doc.maxSnowAccumulation
    readingCount := readingDisplay doc.readingCount }

/-- Safety classification as the specification words it, for comparison with
the code path in `buildStatusCard`. -/
def specSafetyStyle (status : Option String) : String :=
  let lowered := lowerStr (jsStrOr status "Unknown")
  if lowered = "safe" then "status-safe"
  else if lowered ∈ ["warning", "caution"] then "status-warning"
  else if lowered ∈ ["unsafe", "closed"] then "status-danger"
  else "status-warning"

/-- Chart series value of one document field: `Number(field || 0)`, where
`none` models `NaN`. -/
def chartSeriesNumber (v : JsVal) : Option ℚ :=
  jsToNumber (if jsTruthy v then v else JsVal.num 0)

/-- Ice-thickness series of the history chart. -/
def iceValues (data : List AggregationDocument) : List (Option ℚ) :=
  data.map fun d => chartSeriesNumber d.avgIceThickness

/-- Surface-temperature series of the history chart. -/
def tempValues (data : List AggregationDocument) : List (Option ℚ) :=
  data.map fun d => chartSeriesNumber d.avgSurfaceTemperature

/-- Outcome of one history fetch as the chart renderer distinguishes them: a
thrown network/HTTP failure, or a parsed body (a non-array body behaves like
the empty list: it clears pixels and touches no chart state). -/
inductive FetchOutcome where
  | fail
  | ok (data : List AggregationDocument)

/-- Model of the client `canvasIdToKey`. -/
def canvasIdToKey (id : String) : String :=
  if id = "chart-dows" then "dows"
  else if id = "chart-fifth" then "fifth"
  else if id = "chart-nac" then "nac"
  else id

/-- State of the chart registry: the `charts` object (key to registered chart
instance), the set of chart instances not yet destroyed, and a fresh-identity
counter for newly constructed charts. -/
structure RenderState where
  charts : String → Option ℕ
  live : List ℕ
  nextId : ℕ

/-- Initial chart registry: `{ dows: null, fifth: null, nac: null }` (a read
of any other key yields `undefined`, equally falsy). -/
def initialCharts : RenderState :=
  { charts := fun _ => none, live := [], nextId := 0 }

/-- Model of one `renderHistoryForLocation` call as a transition on the chart
registry: missing canvas or a thrown fetch leaves the state untouched; an
empty (or non-array) body only clears pixels; otherwise the chart registered
to the canvas key, if any, is destroyed, and a freshly constructed chart is
registered in its place. -/
def renderHistoryForLocation (s : RenderState) (canvasId : String)
    (canvasPresent : Bool) (res : FetchOutcome) : RenderState :=
  if !canvasPresent then s
  else
    match res with
    | FetchOutcome.fail => s
    | FetchOutcome.ok data =>
      if data.isEmpty then s
      else
        let key := canvasIdToKey canvasId
        let liveAfterDestroy :=
          match s.charts key with
          | some c => s.live.erase c
          | none => s.live
        { charts := fun k => if k = key then some s.nextId else s.charts k
          live := s.nextId :: liveAfterDestroy
          nextId := s.nextId + 1 }

/-- Registry invariant: live chart instances are exactly the registered ones,
each registered under exactly one key, and all below the freshness counter.
Together with `charts` being a map into `Option`, this is the one-live-chart-
per-canvas property. -/
def ChartInv (s : RenderState) : Prop :=
  s.live.Nodup ∧
  (∀ c, c ∈ s.live ↔ ∃ k, s.charts k = some c) ∧
  (∀ k₁ k₂ c, s.charts k₁ = some c → s.charts k₂ = some c → k₁ = k₂) ∧
  (∀ k c, s.charts k = some c → c < s.nextId)

/-- Document constructor for concrete test samples: only the fields a given
claim exercises are set away from the defaults. -/
def mkDoc (loc : Option String) (t : ℚ) : AggregationDocument :=
  { location := loc
    windowEnd := t
    avgIceThickness := JsVal.undef
    avgSurfaceTemperature := JsVal.undef
    maxSnowAccumulation := JsVal.undef
    safetyStatus := none
    readingCount := ReadingCount.undef }

/-- Property reads on the dictionary are truthy exactly for recorded keys and
inherited prototype members. -/
theorem objTruthy_iff (m : List (String × AggregationDocument)) (k : String) :
    objTruthy m k = true ↔ (k ∈ keysOf m ∨ k ∈ protoProps) := by
  have hlookup : (m.lookup k).isSome = true ↔ k ∈ keysOf m := by
    induction m with
    | nil => simp [List.lookup, keysOf]
    | cons e m ih =>
      obtain ⟨a, b⟩ := e
      by_cases h : k = a
      · subst h
        simp [List.lookup, keysOf]
      · have hba : (k == a) = false := by simp [h]
        have hkeys : keysOf ((a, b) :: m) = a :: keysOf m := rfl
        simp only [List.lookup, hba]
        rw [hkeys, List.mem_cons, ih]
        simp [h]
  simp [objTruthy, hlookup]

/-- Every entry recorded by `latestSpec` has an unseen, non-prototype key that
is the location key of its document, and the document comes from the sample. -/
theorem latestSpec_entry_props :
    ∀ (ds : List AggregationDocument) (seen : List String) (k : String)
      (d : AggregationDocument), (k, d) ∈ latestSpec ds seen →
      k ∉ seen ∧ k ∉ protoProps ∧ locKey d.location = k ∧ d ∈ ds := by
  intro ds
  induction ds with
  | nil => simp [latestSpec]
  | cons d0 ds ih =>
    intro seen k d hmem
    simp only [latestSpec] at hmem
    by_cases h : locKey d0.location ∈ seen ∨ locKey d0.location ∈ protoProps
    · rw [if_pos h] at hmem
      obtain ⟨h1, h2, h3, h4⟩ := ih seen k d hmem
      exact ⟨h1, h2, h3, List.mem_cons_of_mem _ h4⟩
    · rw [if_neg h] at hmem
      push_neg at h
      rcases List.mem_cons.mp hmem with heq | hmem2
      · obtain ⟨hk, hd⟩ := Prod.mk.injEq .. ▸ heq
        subst hk; subst hd
        exact ⟨h.1, h.2, rfl, List.mem_cons_self _ _⟩
      · obtain ⟨h1, h2, h3, h4⟩ := ih _ k d hmem2
        exact ⟨fun hk => h1 (List.mem_cons_of_mem _ hk), h2, h3,
          List.mem_cons_of_mem _ h4⟩

/-- The keys recorded by `latestSpec` are pairwise distinct. -/
theorem latestSpec_keys_nodup :
    ∀ (ds : List AggregationDocument) (seen : List String),
      (keysOf (latestSpec ds seen)).Nodup := by
  intro ds
  induction ds with
  | nil => simp [latestSpec, keysOf]
  | cons d0 ds ih =>
    intro seen
    simp only [latestSpec]
    by_cases h : locKey d0.location ∈ seen ∨ locKey d0.location ∈ protoProps
    · rw [if_pos h]; exact ih seen
    · rw [if_neg h]
      refine List.nodup_cons.mpr ⟨?_, ih _⟩
      intro hk
      obtain ⟨⟨k, d⟩, hkd, hfst⟩ := List.mem_map.mp hk
      have h1 := (latestSpec_entry_props ds _ k d hkd).1
      refine h1 ?_
      have hfst' : k = locKey d0.location := hfst
      rw [hfst']
      exact List.mem_cons_self _ _

/-- Characterisation of the entry recorded for an unseen key: present exactly
when the key avoids the prototype members, and then the document is the first
one of the sample carrying that key. -/
theorem latestSpec_mem_iff :
    ∀ (ds : List AggregationDocument) (seen : List String) (k : String)
      (d : AggregationDocument), k ∉ seen →
      ((k, d) ∈ latestSpec ds seen ↔
        (k ∉ protoProps ∧
          ds.find? (fun x => locKey x.location == k) = some d)) := by
  intro ds
  induction ds with
  | nil => simp [latestSpec, List.find?]
  | cons d0 ds ih =>
    intro seen k d hk
    simp only [latestSpec]
    by_cases hkk : k = locKey d0.location
    · by_cases h : locKey d0.location ∈ seen ∨ locKey d0.location ∈ protoProps
      · rw [if_pos h]
        have hkp : k ∈ protoProps := by
          rw [hkk]
          refine h.resolve_left ?_
          rw [← hkk]
          exact hk
        constructor
        · intro hmem
          exact absurd hkp (latestSpec_entry_props ds seen k d hmem).2.1
        · rintro ⟨hnp, -⟩
          exact absurd hkp hnp
      · rw [if_neg h]
        push_neg at h
        rw [List.find?_cons_of_pos _ (by simp [hkk])]
        constructor
        · intro hmem
          rcases List.mem_cons.mp hmem with heq | hmem2
          · obtain ⟨-, hd⟩ := Prod.mk.injEq .. ▸ heq
            refine ⟨by rw [hkk]; exact h.2, by rw [hd]⟩
          · refine absurd ?_ (latestSpec_entry_props ds _ k d hmem2).1
            rw [hkk]
            exact List.mem_cons_self _ _
        · rintro ⟨-, hd⟩
          obtain rfl : d0 = d := by simpa using hd
          refine List.mem_cons.mpr (Or.inl ?_)
          rw [hkk]
    · have hfind : (d0 :: ds).find? (fun x => locKey x.location == k) =
          ds.find? (fun x => locKey x.location == k) := by
        refine List.find?_cons_of_neg _ ?_
        simp only [beq_iff_eq]
        intro hh
        exact hkk hh.symm
      rw [hfind]
      by_cases h : locKey d0.location ∈ seen ∨ locKey d0.location ∈ protoProps
      · rw [if_pos h]
        exact ih seen k d hk
      · rw [if_neg h]
        have : (k, d) ∈ (locKey d0.location, d0) :: latestSpec ds (locKey d0.location :: seen) ↔
            (k, d) ∈ latestSpec ds (locKey d0.location :: seen) := by
          simp [List.mem_cons, hkk]
        rw [this]
        exact ih (locKey d0.location :: seen) k d (by simp [hkk, hk])

/-- Recorded sets with the same membership record the same entries. -/
theorem latestSpec_congr :
    ∀ (ds : List AggregationDocument) (s₁ s₂ : List String),
      (∀ x, x ∈ s₁ ↔ x ∈ s₂) → latestSpec ds s₁ = latestSpec ds s₂ := by
  intro ds
  induction ds with
  | nil => intro _ _ _; rfl
  | cons d0 ds ih =>
    intro s₁ s₂ h
    simp only [latestSpec]
    by_cases h1 : locKey d0.location ∈ s₁ ∨ locKey d0.location ∈ protoProps
    · rw [if_pos h1, if_pos (by rw [← h (locKey d0.location)]; exact h1)]
      exact ih s₁ s₂ h
    · rw [if_neg h1, if_neg (by rw [← h (locKey d0.location)]; exact h1)]
      rw [ih (locKey d0.location :: s₁) (locKey d0.location :: s₂)
        (by intro x; simp [List.mem_cons, h x])]

/-- The handler loop equals the already-recorded entries followed by the
`latestSpec` description of the fresh ones. -/
theorem latestLoop_eq_append :
    ∀ (ds : List AggregationDocument) (m : List (String × AggregationDocument)),
      latestLoop ds m = m ++ latestSpec ds (keysOf m) := by
  intro ds
  induction ds with
  | nil => intro m; simp [latestLoop, latestSpec]
  | cons d0 ds ih =>
    intro m
    simp only [latestLoop, latestSpec]
    cases hob : objTruthy m (locKey d0.location) with
    | true =>
      have h := (objTruthy_iff m (locKey d0.location)).mp hob
      rw [if_pos h]
      simpa using ih m
    | false =>
      have h : ¬ (locKey d0.location ∈ keysOf m ∨ locKey d0.location ∈ protoProps) := by
        intro hh
        have h1 := (objTruthy_iff m (locKey d0.location)).mpr hh
        rw [hob] at h1
        simp at h1
      rw [if_neg h]
      simp only [Bool.false_eq_true, if_false]
      rw [ih (m ++ [(locKey d0.location, d0)])]
      have hkeys : keysOf (m ++ [(locKey d0.location, d0)]) = keysOf m ++ [locKey d0.location] := by
        simp [keysOf]
      rw [hkeys,
        latestSpec_congr ds (keysOf m ++ [locKey d0.location]) (locKey d0.location :: keysOf m)
          (by intro x; simp [List.mem_append, List.mem_cons, or_comm]),
        List.append_assoc]
      rfl

/-- Result of the `/api/latest` handler as the mapped `latestSpec` entries. -/
theorem getLatest_eq (sample : List AggregationDocument) :
    getLatest sample = (latestSpec sample []).map Prod.snd := by
  rw [getLatest, latestLoop_eq_append]
  rfl

/-- First match of a predicate in a descending-by-window-end list has the
maximal window end among all matches. -/
theorem find?_first_windowEnd_max (p : AggregationDocument → Bool) :
    ∀ (ds : List AggregationDocument),
      ds.Pairwise (fun a b => b.windowEnd ≤ a.windowEnd) →
      ∀ d, ds.find? p = some d → ∀ x ∈ ds, p x = true → x.windowEnd ≤ d.windowEnd := by
  intro ds
  induction ds with
  | nil => intro _ d hd; simp [List.find?] at hd
  | cons a ds ih =>
    intro hpw d hfind x hx hpx
    obtain ⟨ha, hpw'⟩ := List.pairwise_cons.mp hpw
    cases hpa : p a with
    | true =>
      rw [List.find?_cons_of_pos _ hpa] at hfind
      obtain rfl : a = d := by simpa using hfind
      rcases List.mem_cons.mp hx with rfl | hx2
      · exact le_refl _
      · exact ha x hx2
    | false =>
      rw [List.find?_cons_of_neg _ (by simp [hpa])] at hfind
      rcases List.mem_cons.mp hx with rfl | hx2
      · rw [hpa] at hpx; exact absurd hpx (by simp)
      · exact ih hpw' d hfind x hx2 hpx

/-- At most one document per location key survives the latest-per-location
reduction. -/
theorem getLatest_countP_le_one (sample : List AggregationDocument) (k : String) :
    (getLatest sample).countP (fun d => locKey d.location == k) ≤ 1 := by
  rw [getLatest_eq, List.countP_map]
  have h1 : (latestSpec sample []).countP ((fun d => locKey d.location == k) ∘ Prod.snd) =
      (latestSpec sample []).countP (fun e => e.1 == k) := by
    refine List.countP_congr ?_
    intro e he
    obtain ⟨-, -, h3, -⟩ := latestSpec_entry_props sample [] e.1 e.2 he
    simp [Function.comp, h3]
  rw [h1]
  have h2 : (latestSpec sample []).countP (fun e => e.1 == k) =
      (keysOf (latestSpec sample [])).countP (fun s => s == k) := by
    rw [keysOf, List.countP_map]
    rfl
  rw [h2, ← List.count_eq_countP]
  exact List.nodup_iff_count_le_one.mp (latestSpec_keys_nodup sample []) k

/-- C1 (amended): for every sample ordered by `windowEnd` descending,
`getLatest` keeps at most one document per location key; every returned
document is the first of the sample carrying its key and has the maximal
window end among same-key documents of the sample; and every location key
present in the sample that does not collide with an inherited
`Object.prototype` member is represented in the result.  (The collision
exception is forced by `c1_proto_key_counterexample`.) -/
theorem c1_latest_per_location (sample : List AggregationDocument)
    (hsorted : sample.Pairwise fun a b => b.windowEnd ≤ a.windowEnd) :
    (∀ k, (getLatest sample).countP (fun d => locKey d.location == k) ≤ 1) ∧
    (∀ d ∈ getLatest sample, d ∈ sample ∧
      sample.find? (fun x => locKey x.location == locKey d.location) = some d ∧
      ∀ x ∈ sample, locKey x.location = locKey d.location →
        x.windowEnd ≤ d.windowEnd) ∧
    (∀ k, k ∉ protoProps → (∃ x ∈ sample, locKey x.location = k) →
      ∃ d ∈ getLatest sample, locKey d.location = k) := by
  refine ⟨fun k => getLatest_countP_le_one sample k, ?_, ?_⟩
  · intro d hd
    rw [getLatest_eq] at hd
    obtain ⟨e, he, hsnd⟩ := List.mem_map.mp hd
    obtain ⟨k, d2⟩ := e
    cases hsnd
    obtain ⟨-, hkp, hkey, hds⟩ := latestSpec_entry_props sample [] k d2 he
    have hfind :=
      ((latestSpec_mem_iff sample [] k d2 (List.not_mem_nil k)).mp he).2
    refine ⟨hds, ?_, ?_⟩
    · rw [hkey]
      exact hfind
    · intro x hx hkx
      refine find?_first_windowEnd_max (fun y => locKey y.location == locKey d2.location)
        sample hsorted d2 ?_ x hx ?_
      · rw [hkey]
        exact hfind
      · simp [hkx]
  · rintro k hkp ⟨x, hx, hkx⟩
    have hex : ∃ y ∈ sample, (locKey y.location == k) = true := ⟨x, hx, by simp [hkx]⟩
    obtain ⟨d, hfind⟩ :=
      Option.isSome_iff_exists.mp (List.find?_isSome.mpr hex)
    have hmem := (latestSpec_mem_iff sample [] k d (List.not_mem_nil k)).mpr ⟨hkp, hfind⟩
    have hkey := (latestSpec_entry_props sample [] k d hmem).2.2.1
    refine ⟨d, ?_, hkey⟩
    rw [getLatest_eq]
    exact List.mem_map.mpr ⟨(k, d), hmem, rfl⟩

/-- C1 counterexample: a single-document sample whose location is
`"toString"` is silently dropped — the property read
`latestByLocation["toString"]` finds the inherited `Object.prototype.toString`
function, which is truthy, so the document is never recorded and the result
is empty although the key occurs in the sample. -/
theorem c1_proto_key_counterexample :
    locKey (mkDoc (some "toString") 0).location = "toString" ∧
    mkDoc (some "toString") 0 ∈ [mkDoc (some "toString") 0] ∧
    List.Pairwise (fun a b => b.windowEnd ≤ a.windowEnd) [mkDoc (some "toString") 0] ∧
    getLatest [mkDoc (some "toString") 0] = [] := by
  exact ⟨rfl, List.mem_singleton.mpr rfl, List.pairwise_singleton .., rfl⟩

/-- C1 witness: the amended theorem applied to a concrete two-document
sample for one location. -/
theorem c1_latest_per_location_witness :
    (getLatest [mkDoc (some "Dows Lake") 10, mkDoc (some "Dows Lake") 5]).countP
        (fun d => locKey d.location == "Dows Lake") ≤ 1 ∧
    (∃ d ∈ getLatest [mkDoc (some "Dows Lake") 10, mkDoc (some "Dows Lake") 5],
      locKey d.location = "Dows Lake") := by
  have h := c1_latest_per_location
    [mkDoc (some "Dows Lake") 10, mkDoc (some "Dows Lake") 5]
    (by simp [List.pairwise_cons, mkDoc]; norm_num)
  exact ⟨h.1 "Dows Lake",
    h.2.2 "Dows Lake" (by decide) ⟨mkDoc (some "Dows Lake") 10, by simp, rfl⟩⟩

/-- C9: a document with an absent or empty location is keyed under the
literal `"Unknown"`, exactly like a document whose location is the string
`"Unknown"`; hence at most one such document survives `getLatest`, namely the
first one of the (descending-ordered) sample whose key is `"Unknown"`, and
its window end dominates all other `"Unknown"`-keyed documents of the
sample. -/
theorem c9_unknown_location_key (sample : List AggregationDocument)
    (d : AggregationDocument)
    (hsorted : sample.Pairwise fun a b => b.windowEnd ≤ a.windowEnd)
    (hfind : sample.find? (fun x => locKey x.location == "Unknown") = some d) :
    locKey none = "Unknown" ∧
    locKey (some "") = "Unknown" ∧
    locKey (some "Unknown") = "Unknown" ∧
    (getLatest sample).countP (fun x => locKey x.location == "Unknown") ≤ 1 ∧
    d ∈ getLatest sample ∧
    (∀ x ∈ sample, locKey x.location = "Unknown" → x.windowEnd ≤ d.windowEnd) := by
  have hnp : "Unknown" ∉ protoProps := by decide
  have hmem := (latestSpec_mem_iff sample [] "Unknown" d
    (List.not_mem_nil "Unknown")).mpr ⟨hnp, hfind⟩
  refine ⟨rfl, rfl, rfl, getLatest_countP_le_one sample "Unknown", ?_, ?_⟩
  · rw [getLatest_eq]
    exact List.mem_map.mpr ⟨("Unknown", d), hmem, rfl⟩
  · intro x hx hkx
    exact find?_first_windowEnd_max _ sample hsorted d hfind x hx (by simp [hkx])

/-- C9 witness: a sample holding an empty-location document and a document
whose location is literally `"Unknown"`; the earlier (newer) one survives. -/
theorem c9_unknown_location_key_witness :
    mkDoc (some "") 10 ∈ getLatest [mkDoc (some "") 10, mkDoc (some "Unknown") 5] ∧
    (getLatest [mkDoc (some "") 10, mkDoc (some "Unknown") 5]).countP
      (fun x => locKey x.location == "Unknown") ≤ 1 := by
  have h := c9_unknown_location_key
    [mkDoc (some "") 10, mkDoc (some "Unknown") 5] (mkDoc (some "") 10)
    (by simp [List.pairwise_cons, mkDoc]; norm_num)
    (by rfl)
  exact ⟨h.2.2.2.2.1, h.2.2.2.1⟩


/-- Membership in the history result: exactly the store documents passing the
time filter and, when a non-empty location is given, the exact-match location
filter. -/
theorem getHistory_mem_iff (store : List AggregationDocument) (now : ℚ)
    (locationQuery hoursQuery : Option String) (d : AggregationDocument) :
    d ∈ getHistory store now locationQuery hoursQuery ↔
      (d ∈ store ∧
        now - jsNumOr (jsQueryNumber hoursQuery) 6 * 3600000 ≤ d.windowEnd ∧
        (jsStrOr locationQuery "" = "" ∨ d.location = some (jsStrOr locationQuery ""))) := by
  rw [getHistory, (List.perm_insertionSort historyLE _).mem_iff, List.mem_filter]
  simp [and_assoc]

/-- The history result is ordered ascending by window end. -/
theorem getHistory_sorted (store : List AggregationDocument) (now : ℚ)
    (locationQuery hoursQuery : Option String) :
    (getHistory store now locationQuery hoursQuery).Sorted historyLE := by
  rw [getHistory]
  exact List.sorted_insertionSort historyLE _

/-- C2: for a positive coerced `hours` value `h`, the history result contains
only documents with `windowEnd ≥ now - h` hours, only exactly matching
locations when a non-empty one is given, is sorted ascending by window end,
and contains every matching store document (no limit is applied). -/
theorem c2_history_window (store : List AggregationDocument) (now : ℚ)
    (locationQuery : Option String) (hs : String) (h : ℚ)
    (hparse : jsParseNumber hs = some h) (hpos : 0 < h) :
    (∀ d ∈ getHistory store now locationQuery (some hs),
      now - h * 3600000 ≤ d.windowEnd) ∧
    (∀ loc : String, locationQuery = some loc → loc ≠ "" →
      ∀ d ∈ getHistory store now locationQuery (some hs), d.location = some loc) ∧
    (getHistory store now locationQuery (some hs)).Sorted historyLE ∧
    (∀ d ∈ store, now - h * 3600000 ≤ d.windowEnd →
      (jsStrOr locationQuery "" = "" ∨ d.location = some (jsStrOr locationQuery "")) →
      d ∈ getHistory store now locationQuery (some hs)) := by
  have hnum : jsNumOr (jsQueryNumber (some hs)) 6 = h := by
    simp [jsQueryNumber, hparse, jsNumOr, hpos.ne']
  refine ⟨?_, ?_, getHistory_sorted store now locationQuery (some hs), ?_⟩
  · intro d hd
    have h1 := (getHistory_mem_iff store now locationQuery (some hs) d).mp hd
    rw [hnum] at h1
    exact h1.2.1
  · intro loc hlq hne d hd
    have h1 := (getHistory_mem_iff store now locationQuery (some hs) d).mp hd
    rcases h1.2.2 with hempty | hmatch
    · rw [hlq] at hempty
      simp [jsStrOr, hne] at hempty
    · rw [hlq] at hmatch
      simpa [jsStrOr, hne] using hmatch
  · intro d hd hw hloc
    refine (getHistory_mem_iff store now locationQuery (some hs) d).mpr ⟨hd, ?_, hloc⟩
    rw [hnum]
    exact hw

/-- C2 witness: the theorem applied at `hours = "24"` for a store holding one
matching document. -/
theorem c2_history_window_witness :
    jsParseNumber "24" = some 24 ∧
    mkDoc (some "Dows Lake") 0 ∈
      getHistory [mkDoc (some "Dows Lake") 0] 0 (some "Dows Lake") (some "24") ∧
    (getHistory [mkDoc (some "Dows Lake") 0] 0 (some "Dows Lake") (some "24")).Sorted
      historyLE := by
  have hp : jsParseNumber "24" = some 24 := by
    show some ((24 : ℕ) : ℚ) = some 24
    norm_num
  have h := c2_history_window [mkDoc (some "Dows Lake") 0] 0 (some "Dows Lake") "24" 24 hp
    (by norm_num)
  refine ⟨hp, ?_, h.2.2.1⟩
  refine h.2.2.2 (mkDoc (some "Dows Lake") 0) (by simp) ?_ (Or.inr rfl)
  show (0 : ℚ) - 24 * 3600000 ≤ 0
  norm_num

/-- C7: an `hours` parameter whose `Number` coercion is `NaN` or `0` (absent,
empty, non-numeric, or the literal zero) makes the history route behave
exactly as if `hours=6` had been supplied. -/
theorem c7_hours_default (store : List AggregationDocument) (now : ℚ)
    (locationQuery hoursQuery : Option String)
    (hfalsy : jsQueryNumber hoursQuery = none ∨ jsQueryNumber hoursQuery = some 0) :
    getHistory store now locationQuery hoursQuery =
      getHistory store now locationQuery (some "6") := by
  have h1 : jsNumOr (jsQueryNumber hoursQuery) 6 = 6 := by
    rcases hfalsy with h | h <;> simp [jsNumOr, h]
  have h6 : jsParseNumber "6" = some ((6 : ℕ) : ℚ) := rfl
  have h2 : jsNumOr (jsQueryNumber (some "6")) 6 = 6 := by
    rw [jsQueryNumber, h6]
    norm_num [jsNumOr]
  rw [getHistory, getHistory, h1, h2]

/-- C7 witness: the theorem applied to the non-numeric string `"abc"` over a
nonempty store. -/
theorem c7_hours_default_witness :
    jsQueryNumber (some "abc") = none ∧
    getHistory [mkDoc none 5] 0 none (some "abc") =
      getHistory [mkDoc none 5] 0 none (some "6") := by
  have hp : jsQueryNumber (some "abc") = none := rfl
  exact ⟨hp, c7_hours_default [mkDoc none 5] 0 none (some "abc") (Or.inl hp)⟩

/-- C10: an `hours` parameter coercing to a negative value `h` is used as-is:
no fallback to 6 occurs, the `since` bound lies strictly in the future of
`now`, and the result consists exactly of the store documents with
`windowEnd ≥ since`, still sorted ascending. -/
theorem c10_negative_hours (store : List AggregationDocument) (now : ℚ)
    (hs : String) (h : ℚ) (hparse : jsParseNumber hs = some h) (hneg : h < 0) :
    now < now - h * 3600000 ∧
    (∀ d, d ∈ getHistory store now none (some hs) ↔
      (d ∈ store ∧ now - h * 3600000 ≤ d.windowEnd)) ∧
    (getHistory store now none (some hs)).Sorted historyLE := by
  have hnum : jsNumOr (jsQueryNumber (some hs)) 6 = h := by
    simp [jsQueryNumber, hparse, jsNumOr, hneg.ne]
  refine ⟨?_, ?_, getHistory_sorted store now none (some hs)⟩
  · have hlt : h * 3600000 < 0 := mul_neg_of_neg_of_pos hneg (by norm_num)
    linarith
  · intro d
    rw [getHistory_mem_iff, hnum]
    simp [jsStrOr]

/-- C10 witness: `hours = "-1"` over a store holding one future document; the
future document is returned and the bound lies in the future. -/
theorem c10_negative_hours_witness :
    (0 : ℚ) < 0 - (-1) * 3600000 ∧
    mkDoc none 3600000 ∈ getHistory [mkDoc none 3600000] 0 none (some "-1") := by
  have hp : jsParseNumber "-1" = some (-1) := by
    show (some ((1 : ℕ) : ℚ)).map Neg.neg = some (-1)
    norm_num
  have h := c10_negative_hours [mkDoc none 3600000] 0 "-1" (-1) hp (by norm_num)
  refine ⟨h.1, (h.2.1 (mkDoc none 3600000)).mpr ⟨by simp, ?_⟩⟩
  show (0 : ℚ) - (-1) * 3600000 ≤ (mkDoc none 3600000).windowEnd
  show (0 : ℚ) - (-1) * 3600000 ≤ 3600000
  norm_num

/-- The `localeCompare` model is nonpositive exactly for nondecreasing
code-point order. -/
theorem localeCompare_nonpos_iff (x y : String) :
    localeCompare x y ≤ 0 ↔ x.toList ≤ y.toList := by
  rw [localeCompare]
  by_cases h1 : x.toList < y.toList
  · rw [if_pos h1]
    constructor
    · intro _
      exact le_of_lt h1
    · intro _
      norm_num
  · rw [if_neg h1]
    by_cases h2 : y.toList < x.toList
    · rw [if_pos h2]
      constructor
      · intro hc
        norm_num at hc
      · intro hle
        exact absurd h2 (not_lt.mpr hle)
    · rw [if_neg h2]
      constructor
      · intro _
        exact le_of_not_lt h2
      · intro _
        exact le_refl _

/-- The priority-then-alphabetical order coincides with a nonpositive
comparator value. -/
theorem cardLE_iff_cmp_nonpos (a b : AggregationDocument) :
    cardLE a b ↔ latestCardCmp a b ≤ 0 := by
  rw [cardLE, latestCardCmp]
  by_cases hp : priorityOf (cardLoc a) = priorityOf (cardLoc b)
  · rw [if_neg (not_not_intro hp), localeCompare_nonpos_iff]
    simp [hp, lt_irrefl]
  · rw [if_pos hp, sub_nonpos]
    constructor
    · rintro (hlt | ⟨heq, -⟩)
      · exact le_of_lt hlt
      · exact absurd heq hp
    · intro hle
      exact Or.inl (lt_of_le_of_ne hle hp)

/-- C4: the latest-status renderer sorts a copy of the data (a permutation)
into priority-then-alphabetical order — the order described by the
comparator being nonpositive — and on the four-location example the rendered
order is Dows Lake, Fifth Avenue, NAC, Zebra. -/
theorem c4_latest_card_order (data : List AggregationDocument) :
    (sortedLatestCards data).Perm data ∧
    (sortedLatestCards data).Sorted cardLE ∧
    (∀ a b, cardLE a b ↔ latestCardCmp a b ≤ 0) ∧
    (sortedLatestCards
        [mkDoc (some "NAC") 0, mkDoc (some "Dows Lake") 0,
         mkDoc (some "Zebra") 0, mkDoc (some "Fifth Avenue") 0]).map cardLoc
      = ["Dows Lake", "Fifth Avenue", "NAC", "Zebra"] := by
  refine ⟨List.perm_insertionSort cardLE data,
    List.sorted_insertionSort cardLE data, cardLE_iff_cmp_nonpos, ?_⟩
  decide

/-- C5: the badge class of every rendered card follows the specified 3-way
classification of the lowercased status with the warning style as default,
the badge label is the raw (non-lowercased) status defaulting to `"Unknown"`,
and a `"CAUTION"` document gets the warning style with the label
`"CAUTION"`. -/
theorem c5_safety_badge (d : AggregationDocument) :
    (buildStatusCard d).badgeClass = specSafetyStyle d.safetyStatus ∧
    (buildStatusCard d).label = jsStrOr d.safetyStatus "Unknown" ∧
    (buildStatusCard { mkDoc none 0 with safetyStatus := some "CAUTION" }).badgeClass
      = "status-warning" ∧
    (buildStatusCard { mkDoc none 0 with safetyStatus := some "CAUTION" }).label
      = "CAUTION" := by
  refine ⟨?_, rfl, by decide, by decide⟩
  simp only [buildStatusCard, specSafetyStyle, List.mem_cons, List.mem_singleton,
    List.not_mem_nil, or_false]

/-- All characters produced by the digit renderer are ASCII. -/
theorem natToStrAux_ascii :
    ∀ (fuel n : ℕ) (acc : List Char), (∀ c ∈ acc, c.toNat < 128) →
      ∀ c ∈ natToStrAux fuel n acc, c.toNat < 128 := by
  have hdigit : ∀ k, k < 10 → (digitChar k).toNat < 128 := by decide
  intro fuel
  induction fuel with
  | zero =>
    intro n acc hacc c hc
    exact hacc c hc
  | succ fuel ih =>
    intro n acc hacc c hc
    simp only [natToStrAux] at hc
    by_cases h : n < 10
    · rw [if_pos h] at hc
      rcases List.mem_cons.mp hc with rfl | hc2
      · exact hdigit n h
      · exact hacc c hc2
    · rw [if_neg h] at hc
      refine ih (n / 10) _ ?_ c hc
      intro c2 hc2
      rcases List.mem_cons.mp hc2 with rfl | hc3
      · exact hdigit (n % 10) (Nat.mod_lt _ (by norm_num))
      · exact hacc c2 hc3

/-- The decimal rendering of an integer is never the dash placeholder. -/
theorem jsIntToString_ne_dash (i : ℤ) : jsIntToString i ≠ "—" := by
  intro h
  cases i with
  | ofNat n =>
    have hdata : natToStrAux (n + 1) n [] = ['—'] := congrArg String.data h
    have hmem : ('—' : Char) ∈ natToStrAux (n + 1) n [] := by
      rw [hdata]
      exact List.mem_singleton.mpr rfl
    have hlt := natToStrAux_ascii (n + 1) n [] (by simp) '—' hmem
    exact absurd hlt (by decide)
  | negSucc m =>
    have hdata : '-' :: natToStrAux (m + 2) (m + 1) [] = ['—'] := congrArg String.data h
    injection hdata with h1 _
    exact absurd h1 (by decide)

/-- Value of `toFixed(1)` at zero, the rendering that `Number(null)` and
`Number("")` lead to. -/
theorem toFixed1_zero : toFixed1 0 = "0.0" := by
  have h0 : (⌊(0 : ℚ) * 10 + 1 / 2⌋ : ℤ) = 0 := by norm_num
  simp only [toFixed1, h0]
  decide

/-- C6 (amended): a numeric metric renders via `toFixed(1)`; an absent metric
or a metric whose `Number` coercion is `NaN` (such as a non-numeric string)
renders as the dash placeholder; a `null` metric coerces to `0` and renders
`"0.0"` (the exception forced by `c6_null_metric_counterexample`); the
reading count renders as the dash placeholder exactly when it is `null` or
absent, and a zero reading count renders as `0`. -/
theorem c6_metric_formatting (d : AggregationDocument) (q : ℚ) (s : String) :
    (d.avgIceThickness = JsVal.num q → (buildStatusCard d).avgIce = toFixed1 q) ∧
    (d.avgIceThickness = JsVal.undef → (buildStatusCard d).avgIce = "—") ∧
    (d.avgIceThickness = JsVal.str s → jsParseNumber s = none →
      (buildStatusCard d).avgIce = "—") ∧
    (d.avgSurfaceTemperature = JsVal.num q →
      (buildStatusCard d).avgSurface = toFixed1 q) ∧
    (d.avgSurfaceTemperature = JsVal.undef → (buildStatusCard d).avgSurface = "—") ∧
    (d.maxSnowAccumulation = JsVal.num q → (buildStatusCard d).maxSnow = toFixed1 q) ∧
    (d.maxSnowAccumulation = JsVal.undef → (buildStatusCard d).maxSnow = "—") ∧
    (d.avgIceThickness = JsVal.null → (buildStatusCard d).avgIce = "0.0") ∧
    (∀ rc, readingDisplay rc = "—" ↔ (rc = ReadingCount.null ∨ rc = ReadingCount.undef)) ∧
    readingDisplay (ReadingCount.int 0) = "0" := by
  refine ⟨?_, ?_, ?_, ?_, ?_, ?_, ?_, ?_, ?_, by decide⟩
  · intro h
    simp [buildStatusCard, numOrDash, jsToNumber, h]
  · intro h
    simp [buildStatusCard, numOrDash, jsToNumber, h]
  · intro h hs
    simp [buildStatusCard, numOrDash, jsToNumber, h, hs]
  · intro h
    simp [buildStatusCard, numOrDash, jsToNumber, h]
  · intro h
    simp [buildStatusCard, numOrDash, jsToNumber, h]
  · intro h
    simp [buildStatusCard, numOrDash, jsToNumber, h]
  · intro h
    simp [buildStatusCard, numOrDash, jsToNumber, h]
  · intro h
    simp [buildStatusCard, numOrDash, jsToNumber, h, toFixed1_zero]
  · intro rc
    cases rc with
    | undef => simp [readingDisplay]
    | null => simp [readingDisplay]
    | int n => simp [readingDisplay, jsIntToString_ne_dash n]

/-- C6 counterexample: a `null` ice-thickness metric renders `"0.0"`, not the
dash placeholder, because `Number(null)` is `0`, not `NaN`. -/
theorem c6_null_metric_counterexample :
    (buildStatusCard { mkDoc none 0 with avgIceThickness := JsVal.null }).avgIce = "0.0" ∧
    (buildStatusCard { mkDoc none 0 with avgIceThickness := JsVal.null }).avgIce ≠ "—" := by
  have h : (buildStatusCard { mkDoc none 0 with avgIceThickness := JsVal.null }).avgIce
      = "0.0" := by
    simp [buildStatusCard, numOrDash, jsToNumber, toFixed1_zero]
  refine ⟨h, ?_⟩
  rw [h]
  decide

/-- C6 witness: the amended theorem applied to a document whose ice thickness
is the non-numeric string `"abc"`. -/
theorem c6_metric_formatting_witness :
    jsParseNumber "abc" = none ∧
    (buildStatusCard { mkDoc none 0 with avgIceThickness := JsVal.str "abc" }).avgIce
      = "—" := by
  have hp : jsParseNumber "abc" = none := rfl
  exact ⟨hp,
    (c6_metric_formatting { mkDoc none 0 with avgIceThickness := JsVal.str "abc" }
      0 "abc").2.2.1 rfl hp⟩

/-- C8 (amended): a numeric field is passed to the chart series unchanged
(including `0`); absent, `null` and empty-string fields default to `0`; but a
truthy non-numeric field yields `NaN` rather than `0` (the exception forced
by `c8_nonnumeric_counterexample`).  The computation is total: no error is
propagated. -/
theorem c8_series_defaults (q : ℚ) (d : AggregationDocument) :
    chartSeriesNumber (JsVal.num q) = some q ∧
    chartSeriesNumber JsVal.undef = some 0 ∧
    chartSeriesNumber JsVal.null = some 0 ∧
    chartSeriesNumber (JsVal.str "") = some 0 ∧
    iceValues [{ d with avgIceThickness := JsVal.undef }] = [some 0] ∧
    tempValues [{ d with avgSurfaceTemperature := JsVal.undef }] = [some 0] := by
  have hnum : chartSeriesNumber (JsVal.num q) = some q := by
    by_cases hq : q = 0
    · simp [chartSeriesNumber, jsTruthy, jsToNumber, hq]
    · simp [chartSeriesNumber, jsTruthy, jsToNumber, hq]
  exact ⟨hnum, rfl, rfl, rfl, rfl, rfl⟩

/-- C8 counterexample: a truthy non-numeric ice thickness (the string
`"abc"`) produces the series value `NaN`, not the claimed default `0`,
because `"abc" || 0` keeps the truthy string and `Number("abc")` is `NaN`. -/
theorem c8_nonnumeric_counterexample :
    iceValues [{ mkDoc none 0 with avgIceThickness := JsVal.str "abc" }] = [none] ∧
    chartSeriesNumber (JsVal.str "abc") ≠ some 0 := by
  constructor
  · rfl
  · intro h
    simp [chartSeriesNumber, jsTruthy, jsToNumber] at h
    exact Option.noConfusion h

/-- Unfolding of a successful data-carrying render step. -/
theorem render_ok_cons (s : RenderState) (canvasId : String)
    (d : AggregationDocument) (ds : List AggregationDocument) :
    renderHistoryForLocation s canvasId true (FetchOutcome.ok (d :: ds)) =
      { charts := fun k =>
          if k = canvasIdToKey canvasId then some s.nextId else s.charts k
        live := s.nextId ::
          (match s.charts (canvasIdToKey canvasId) with
            | some c => s.live.erase c
            | none => s.live)
        nextId := s.nextId + 1 } := rfl

/-- A successful data-carrying render step preserves the chart-registry
invariant. -/
theorem chartInv_step (s : RenderState) (canvasId : String)
    (d : AggregationDocument) (ds : List AggregationDocument)
    (hinv : ChartInv s) :
    ChartInv (renderHistoryForLocation s canvasId true (FetchOutcome.ok (d :: ds))) := by
  obtain ⟨hnodup, hmem, hinj, hbound⟩ := hinv
  rw [render_ok_cons]
  have hfresh : s.nextId ∉ s.live := by
    intro hn
    obtain ⟨k, hk⟩ := (hmem s.nextId).mp hn
    exact lt_irrefl _ (hbound k s.nextId hk)
  cases hck : s.charts (canvasIdToKey canvasId) with
  | none =>
    simp only [hck]
    unfold ChartInv
    dsimp only
    refine ⟨List.nodup_cons.mpr ⟨hfresh, hnodup⟩, ?_, ?_, ?_⟩
    · intro c
      constructor
      · intro hc
        rcases List.mem_cons.mp hc with rfl | hc2
        · exact ⟨canvasIdToKey canvasId, by simp⟩
        · obtain ⟨k, hk⟩ := (hmem c).mp hc2
          have hkne : k ≠ canvasIdToKey canvasId := by
            rintro rfl
            rw [hck] at hk
            exact Option.noConfusion hk
          refine ⟨k, ?_⟩
          rw [if_neg hkne]
          exact hk
      · rintro ⟨k, hk⟩
        by_cases hkk : k = canvasIdToKey canvasId
        · rw [if_pos hkk] at hk
          obtain rfl : s.nextId = c := Option.some.inj hk
          exact List.mem_cons_self _ _
        · rw [if_neg hkk] at hk
          exact List.mem_cons_of_mem _ ((hmem c).mpr ⟨k, hk⟩)
    · intro k1 k2 c h1 h2
      by_cases e1 : k1 = canvasIdToKey canvasId <;>
        by_cases e2 : k2 = canvasIdToKey canvasId
      · rw [e1, e2]
      · rw [if_pos e1] at h1
        rw [if_neg e2] at h2
        obtain rfl : s.nextId = c := Option.some.inj h1
        exact absurd (hbound k2 _ h2) (lt_irrefl _)
      · rw [if_neg e1] at h1
        rw [if_pos e2] at h2
        obtain rfl : s.nextId = c := Option.some.inj h2
        exact absurd (hbound k1 _ h1) (lt_irrefl _)
      · rw [if_neg e1] at h1
        rw [if_neg e2] at h2
        exact hinj k1 k2 c h1 h2
    · intro k c hk
      by_cases e : k = canvasIdToKey canvasId
      · rw [if_pos e] at hk
        obtain rfl : s.nextId = c := Option.some.inj hk
        exact Nat.lt_succ_self _
      · rw [if_neg e] at hk
        exact Nat.lt_succ_of_lt (hbound k c hk)
  | some c0 =>
    simp only [hck]
    unfold ChartInv
    dsimp only
    have herase : s.live.erase c0 = s.live.filter (fun x => x != c0) :=
      hnodup.erase_eq_filter c0
    refine ⟨?_, ?_, ?_, ?_⟩
    · refine List.nodup_cons.mpr ⟨?_, hnodup.erase c0⟩
      intro hn
      exact hfresh (List.mem_of_mem_erase hn)
    · intro c
      constructor
      · intro hc
        rcases List.mem_cons.mp hc with rfl | hc2
        · exact ⟨canvasIdToKey canvasId, by simp⟩
        · rw [herase, List.mem_filter] at hc2
          obtain ⟨hclive, hcne⟩ := hc2
          have hcne' : c ≠ c0 := by simpa using hcne
          obtain ⟨k, hk⟩ := (hmem c).mp hclive
          have hkne : k ≠ canvasIdToKey canvasId := by
            rintro rfl
            rw [hck] at hk
            exact hcne' (Option.some.inj hk).symm
          refine ⟨k, ?_⟩
          rw [if_neg hkne]
          exact hk
      · rintro ⟨k, hk⟩
        by_cases hkk : k = canvasIdToKey canvasId
        · rw [if_pos hkk] at hk
          obtain rfl : s.nextId = c := Option.some.inj hk
          exact List.mem_cons_self _ _
        · rw [if_neg hkk] at hk
          have hclive : c ∈ s.live := (hmem c).mpr ⟨k, hk⟩
          have hcne : c ≠ c0 := by
            rintro rfl
            exact hkk (hinj k (canvasIdToKey canvasId) c hk hck)
          refine List.mem_cons_of_mem _ ?_
          rw [herase, List.mem_filter]
          exact ⟨hclive, by simpa using hcne⟩
    · intro k1 k2 c h1 h2
      by_cases e1 : k1 = canvasIdToKey canvasId <;>
        by_cases e2 : k2 = canvasIdToKey canvasId
      · rw [e1, e2]
      · rw [if_pos e1] at h1
        rw [if_neg e2] at h2
        obtain rfl : s.nextId = c := Option.some.inj h1
        exact absurd (hbound k2 _ h2) (lt_irrefl _)
      · rw [if_neg e1] at h1
        rw [if_pos e2] at h2
        obtain rfl : s.nextId = c := Option.some.inj h2
        exact absurd (hbound k1 _ h1) (lt_irrefl _)
      · rw [if_neg e1] at h1
        rw [if_neg e2] at h2
        exact hinj k1 k2 c h1 h2
    · intro k c hk
      by_cases e : k = canvasIdToKey canvasId
      · rw [if_pos e] at hk
        obtain rfl : s.nextId = c := Option.some.inj hk
        exact Nat.lt_succ_self _
      · rw [if_neg e] at hk
        exact Nat.lt_succ_of_lt (hbound k c hk)

/-- C3: per canvas, a failed fetch leaves the registry untouched; the
invariant that live charts are exactly the registered ones (at most one per
canvas) is preserved by every render step; the first successful data fetch
registers a fresh live chart on the canvas; and every further successful data
fetch destroys the previously registered chart before the fresh replacement
is registered. -/
theorem c3_chart_lifecycle (s : RenderState) (canvasId : String) (res : FetchOutcome) :
    (res = FetchOutcome.fail → renderHistoryForLocation s canvasId true res = s) ∧
    (ChartInv s → ChartInv (renderHistoryForLocation s canvasId true res)) ∧
    (∀ data, res = FetchOutcome.ok data → data ≠ [] →
      s.charts (canvasIdToKey canvasId) = none →
      (renderHistoryForLocation s canvasId true res).charts (canvasIdToKey canvasId)
          = some s.nextId ∧
      s.nextId ∈ (renderHistoryForLocation s canvasId true res).live) ∧
    (∀ data c, res = FetchOutcome.ok data → data ≠ [] → ChartInv s →
      s.charts (canvasIdToKey canvasId) = some c →
      c ∉ (renderHistoryForLocation s canvasId true res).live ∧
      (renderHistoryForLocation s canvasId true res).charts (canvasIdToKey canvasId)
          = some s.nextId ∧
      s.nextId ∈ (renderHistoryForLocation s canvasId true res).live) := by
  refine ⟨?_, ?_, ?_, ?_⟩
  · rintro rfl
    rfl
  · intro hinv
    cases res with
    | fail => exact hinv
    | ok data =>
      cases data with
      | nil => exact hinv
      | cons d ds => exact chartInv_step s canvasId d ds hinv
  · rintro data rfl hne hck
    cases data with
    | nil => exact absurd rfl hne
    | cons d ds =>
      rw [render_ok_cons]
      simp only [hck]
      exact ⟨by simp, List.mem_cons_self _ _⟩
  · rintro data c rfl hne hinv hck
    obtain ⟨hnodup, hmem, hinj, hbound⟩ := hinv
    cases data with
    | nil => exact absurd rfl hne
    | cons d ds =>
      rw [render_ok_cons]
      simp only [hck]
      refine ⟨?_, by simp, List.mem_cons_self _ _⟩
      intro hc
      rcases List.mem_cons.mp hc with heq | hc2
      · rw [heq] at hck
        exact absurd (hbound (canvasIdToKey canvasId) _ hck) (lt_irrefl _)
      · rw [hnodup.erase_eq_filter c, List.mem_filter] at hc2
        simp at hc2

/-- C3 witness: the lifecycle theorem applied to the initial registry and the
Dows Lake canvas — a failed fetch changes nothing, and a successful data
fetch installs chart `0` as the registered live chart while preserving the
invariant. -/
theorem c3_chart_lifecycle_witness :
    renderHistoryForLocation initialCharts "chart-dows" true FetchOutcome.fail
        = initialCharts ∧
    ChartInv (renderHistoryForLocation initialCharts "chart-dows" true
      (FetchOutcome.ok [mkDoc (some "Dows Lake") 0])) ∧
    (renderHistoryForLocation initialCharts "chart-dows" true
        (FetchOutcome.ok [mkDoc (some "Dows Lake") 0])).charts "dows" = some 0 ∧
    0 ∈ (renderHistoryForLocation initialCharts "chart-dows" true
      (FetchOutcome.ok [mkDoc (some "Dows Lake") 0])).live := by
  have hinv0 : ChartInv initialCharts := by
    refine ⟨List.nodup_nil, ?_, ?_, ?_⟩ <;> simp [initialCharts]
  have hfail := c3_chart_lifecycle initialCharts "chart-dows" FetchOutcome.fail
  have hok := c3_chart_lifecycle initialCharts "chart-dows"
    (FetchOutcome.ok [mkDoc (some "Dows Lake") 0])
  have hcreate := hok.2.2.1 [mkDoc (some "Dows Lake") 0] rfl (by simp) rfl
  exact ⟨hfail.1 rfl, hok.2.1 hinv0, hcreate.1, hcreate.2⟩
